import Mathlib

/-!
Shallow embedding of the collaborative drawing client's stroke
synchronization logic (the `DrawArea` component): the local stroke
builder (`onMouseDown` / `onMouseMove` / `onMouseUp` plus the point-append
part of `drawLine`), the remote stroke table driven by the
`draw:start` / `draw:move` / `draw:end` / `draw:clear` socket listeners,
the snapshot hydration effect, the ctrl-z undo handler and `clearCanvas`.

Canvas painting (`ctx.*` calls) is an external effect with no influence on
the stroke state, so it is not modelled; the `canvasRef.current` /
`getContext` null guards of `drawLine` are modelled by the `hasCanvas`
flag because they gate the point push itself.  Socket emissions are
recorded in an event log so that claims about emitted events can be
stated.
-/

namespace DrawApp

/-- A canvas-local coordinate, `type Point = { x: number; y: number }`. -/
structure Point where
  x : Int
  y : Int
deriving Repr, DecidableEq

/-- `type Stroke = { points: Point[]; color: string; width: number; isEraser?: boolean }`. -/
structure Stroke where
  points : List Point
  color : String
  width : Int
  isEraser : Bool
deriving Repr, DecidableEq

/-- Ghost provenance tag for strokes in the store.  The code's `strokesRef`
holds bare `Stroke`s with no owner field; this tag records only which
handler pushed the stroke (`onMouseUp`, the `draw:end` listener, or the
hydration effect) so that owner-based spec claims can be stated.  It is
metadata: no operation ever branches on it. -/
inductive Origin where
  | fromLocal
  | fromRemote (userId : String)
  | fromHydrate
deriving Repr, DecidableEq

/-- A stroke as delivered by the snapshot fetch
(`{points, color, strokeWidth, isEraser}`). -/
structure WireStroke where
  points : List Point
  color : String
  strokeWidth : Int
  isEraser : Bool
deriving Repr, DecidableEq

/-- An event emitted through `SocketManager.emit`. -/
inductive WireOut where
  | startEv (x y : Int) (color : String) (width : Int) (isEraser : Bool)
  | moveEv (x y : Int)
  | endEv
  | clearEv
deriving Repr, DecidableEq

/-- The component state of `DrawArea`:
`myUser` from `useMyUserStore`, `hasCanvas` for `canvasRef.current` and its
2d context being available, the three style states, `strokesRef` (with the
ghost `Origin` tag), `currentStrokeRef`, `remoteStrokesRef`
(`Record<string, Stroke>` as an association list), and the log of emitted
socket events (most recent last). -/
structure AppState where
  myUser : Option String
  hasCanvas : Bool
  currentColor : String
  lineWidth : Int
  isEraser : Bool
  strokes : List (Stroke × Origin)
  currentStroke : Option Stroke
  remoteStrokes : List (String × Stroke)
  emitted : List WireOut
deriving Repr, DecidableEq

/-- `remoteStrokesRef.current[userId]` read access. -/
def tableGet : List (String × Stroke) → String → Option Stroke
  | [], _ => none
  | kv :: rest, key => if kv.1 = key then some kv.2 else tableGet rest key

/-- `remoteStrokesRef.current[userId] = v` write access: a JS record keeps
the key's position when it is overwritten and appends a fresh key at the
end. -/
def tableSet (key : String) (v : Stroke) (l : List (String × Stroke)) :
    List (String × Stroke) :=
  if (tableGet l key).isSome then
    l.map fun kv => if kv.1 = key then (key, v) else kv
  else l ++ [(key, v)]

/-- `delete remoteStrokesRef.current[userId]`. -/
def tableDel (key : String) (l : List (String × Stroke)) :
    List (String × Stroke) :=
  l.filter fun kv => kv.1 ≠ key

/-- `const canUserDraw = useMemo(() => myUser !== null, [myUser])`. -/
def canUserDraw (s : AppState) : Bool :=
  s.myUser.isSome

/-- `drawLine` (part_001 lines 115-143), state effect only: when the canvas
and its context exist and a stroke is in progress, pushes the point onto
the current stroke (`stroke.points.push(point)`); the segment painting is
an external effect. -/
def drawLine (p : Point) (s : AppState) : AppState :=
  if s.hasCanvas then
    match s.currentStroke with
    | none => s
    | some st =>
        let st2 : Stroke := { st with points := st.points ++ [p] }
        { s with currentStroke := some st2 }
  else s

/-- `onMouseMove`: `drawLine(coords)` then
`SocketManager.emit('draw:move', {x, y})`. -/
def onMouseMove (p : Point) (s : AppState) : AppState :=
  let s1 := drawLine p s
  { s1 with emitted := s1.emitted ++ [WireOut.moveEv p.x p.y] }

/-- `onMouseUp`: pushes the current stroke (if any) into `strokesRef`,
clears it, and emits `draw:end`.  The listener removal has no stroke-state
effect. -/
def onMouseUp (s : AppState) : AppState :=
  let s1 :=
    match s.currentStroke with
    | some st =>
        { s with strokes := s.strokes ++ [(st, Origin.fromLocal)],
                 currentStroke := none }
    | none => s
  { s1 with emitted := s1.emitted ++ [WireOut.endEv] }

/-- `onMouseDown` (part_001 lines 177-205): returns early when
`!canUserDraw`; otherwise installs a fresh one-point current stroke from
the style states, calls `drawLine(coords)` (which pushes the origin a
second time when the canvas exists), and emits `draw:start`. -/
def onMouseDown (p : Point) (s : AppState) : AppState :=
  if canUserDraw s then
    let st : Stroke :=
      { points := [p], color := s.currentColor, width := s.lineWidth,
        isEraser := s.isEraser }
    let s1 := { s with currentStroke := some st }
    let s2 := drawLine p s1
    let out := WireOut.startEv p.x p.y s.currentColor s.lineWidth s.isEraser
    { s2 with emitted := s2.emitted ++ [out] }
  else s

/-- The `draw:start` listener (part_001 lines 262-272): overwrites the
table entry for `userId` with a stroke built from the payload
(`points: [...points], color, width: strokeWidth, isEraser`). -/
def onRemoteStart (userId : String) (points : List Point) (color : String)
    (strokeWidth : Int) (isEraserFlag : Bool) (s : AppState) : AppState :=
  let st : Stroke :=
    { points := points, color := color, width := strokeWidth,
      isEraser := isEraserFlag }
  { s with remoteStrokes := tableSet userId st s.remoteStrokes }

/-- The `draw:move` listener (part_001 lines 275-281): returns early when
no table entry exists for `userId`, otherwise appends the payload points
to that entry in place. -/
def onRemoteMove (userId : String) (points : List Point) (s : AppState) :
    AppState :=
  match tableGet s.remoteStrokes userId with
  | none => s
  | some st =>
      let st2 : Stroke := { st with points := st.points ++ points }
      { s with remoteStrokes := tableSet userId st2 s.remoteStrokes }

/-- The `draw:end` listener (part_001 lines 284-291): returns early when no
table entry exists for `userId`, otherwise pushes the entry into
`strokesRef` and deletes it from the table. -/
def onRemoteEnd (userId : String) (s : AppState) : AppState :=
  match tableGet s.remoteStrokes userId with
  | none => s
  | some st =>
      { s with strokes := s.strokes ++ [(st, Origin.fromRemote userId)],
               remoteStrokes := tableDel userId s.remoteStrokes }

/-- The `draw:clear` listener: empties `strokesRef` and
`remoteStrokesRef`. -/
def onRemoteClear (s : AppState) : AppState :=
  { s with strokes := [], remoteStrokes := [] }

/-- The per-stroke conversion of the hydration effect (part_001 lines
226-232): `{points: stroke.points, color: stroke.color,
width: stroke.strokeWidth, isEraser: stroke.isEraser}`. -/
def hydrateStroke (w : WireStroke) : Stroke :=
  { points := w.points, color := w.color, width := w.strokeWidth,
    isEraser := w.isEraser }

/-- The hydration effect (part_001 lines 222-237): pushes every snapshot
stroke into `strokesRef` in order. -/
def hydrate (ws : List WireStroke) (s : AppState) : AppState :=
  { s with strokes :=
      s.strokes ++ ws.map fun w => (hydrateStroke w, Origin.fromHydrate) }

/-- The ctrl-z handler (part_001 lines 304-309): `strokesRef.current.pop()`
removes the most recently pushed stroke, whatever pushed it. -/
def undoLast (s : AppState) : AppState :=
  { s with strokes := s.strokes.dropLast }

/-- `clearCanvas`: empties both stroke containers and emits
`draw:clear`. -/
def clearCanvas (s : AppState) : AppState :=
  { s with strokes := [], remoteStrokes := [],
           emitted := s.emitted ++ [WireOut.clearEv] }

/-- One mutation entry point of the component (§5: single-threaded,
run-to-completion). -/
inductive Ev where
  | mouseDown (p : Point)
  | mouseMove (p : Point)
  | mouseUp
  | remoteStart (uid : String) (pts : List Point) (color : String)
      (w : Int) (e : Bool)
  | remoteMove (uid : String) (pts : List Point)
  | remoteEnd (uid : String)
  | remoteClear
  | hydrateEv (ws : List WireStroke)
  | clearEv
  | undoEv
deriving Repr, DecidableEq

/-- Dispatch one event to its handler. -/
def step (s : AppState) : Ev → AppState
  | .mouseDown p => onMouseDown p s
  | .mouseMove p => onMouseMove p s
  | .mouseUp => onMouseUp s
  | .remoteStart uid pts c w e => onRemoteStart uid pts c w e s
  | .remoteMove uid pts => onRemoteMove uid pts s
  | .remoteEnd uid => onRemoteEnd uid s
  | .remoteClear => onRemoteClear s
  | .hydrateEv ws => hydrate ws s
  | .clearEv => clearCanvas s
  | .undoEv => undoLast s

/-- Run a sequence of events in delivery order. -/
def run (s : AppState) (es : List Ev) : AppState :=
  es.foldl step s

/-- The component's state after mount: empty stroke containers, no stroke
in progress, the style defaults (`'#000000'` from the color store,
`lineWidth` 4, `isEraser` false), a mounted canvas. -/
def initState (user : Option String) : AppState :=
  { myUser := user, hasCanvas := true, currentColor := "#000000",
    lineWidth := 4, isEraser := false, strokes := [], currentStroke := none,
    remoteStrokes := [], emitted := [] }

/-- Boolean: every stroke in the Stroke Store has at least one point. -/
def noEmptyStored (s : AppState) : Bool :=
  s.strokes.all fun x => !x.1.points.isEmpty

/-- Boolean invariant used to establish `noEmptyStored` inductively:
strokes in the store, entries of the remote table and the in-progress
stroke (if any) all have at least one point. -/
def nonEmptyInv (s : AppState) : Bool :=
  noEmptyStored s &&
    (s.remoteStrokes.all fun kv => !kv.2.points.isEmpty) &&
    (match s.currentStroke with
     | none => true
     | some st => !st.points.isEmpty)

/-- Boolean: the event carries no empty point list — a remote start carries
at least one initial point and every hydrated stroke has at least one
point.  All other events are unrestricted. -/
def goodEv : Ev → Bool
  | .remoteStart _ pts _ _ _ => !pts.isEmpty
  | .hydrateEv ws => ws.all fun w => !w.points.isEmpty
  | _ => true

/-- A sample snapshot stroke. -/
def strokeA : WireStroke :=
  { points := [⟨1, 1⟩], color := "#111111", strokeWidth := 1,
    isEraser := false }

/-- Another sample snapshot stroke. -/
def strokeB : WireStroke :=
  { points := [⟨2, 2⟩, ⟨3, 3⟩], color := "#222222", strokeWidth := 2,
    isEraser := true }

/-- A sample in-progress stroke. -/
def inProgressStroke : Stroke :=
  { points := [⟨0, 0⟩], color := "#00ff00", width := 2, isEraser := false }

/-- A concrete state with a stroke already in progress for the local
participant, for exercising the begin entry point. -/
def inProgressState : AppState :=
  { myUser := some "me", hasCanvas := true, currentColor := "#00ff00",
    lineWidth := 2, isEraser := false, strokes := [],
    currentStroke := some inProgressStroke,
    remoteStrokes := [], emitted := [] }

/-! ### Helper lemmas about the remote stroke table -/

theorem tableGet_map_set (k : String) (v : Stroke) :
    ∀ l : List (String × Stroke), (tableGet l k).isSome = true →
      tableGet (l.map fun kv => if kv.1 = k then (k, v) else kv) k = some v
  | [], h => by simp [tableGet] at h
  | kv :: rest, h => by
      by_cases hk : kv.1 = k
      · simp [tableGet, hk]
      · have h' : (tableGet rest k).isSome = true := by
          simpa [tableGet, hk] using h
        simpa [tableGet, hk] using tableGet_map_set k v rest h'

theorem tableGet_append_of_none (k : String) :
    ∀ l m : List (String × Stroke), tableGet l k = none →
      tableGet (l ++ m) k = tableGet m k
  | [], _, _ => rfl
  | kv :: rest, m, h => by
      by_cases hk : kv.1 = k
      · simp [tableGet, hk] at h
      · have h' : tableGet rest k = none := by simpa [tableGet, hk] using h
        simpa [tableGet, hk] using tableGet_append_of_none k rest m h'

/-- Reading back the key just written returns the written stroke. -/
theorem tableGet_tableSet (l : List (String × Stroke)) (k : String)
    (v : Stroke) : tableGet (tableSet k v l) k = some v := by
  unfold tableSet
  by_cases h : (tableGet l k).isSome
  · simpa [h] using tableGet_map_set k v l h
  · have hn : tableGet l k = none := by
      cases hg : tableGet l k with
      | none => rfl
      | some w => simp [hg] at h
    simp [h, tableGet_append_of_none k l [(k, v)] hn, tableGet]

/-- A successful read returns an entry of the table. -/
theorem tableGet_mem {l : List (String × Stroke)} {k : String} {v : Stroke}
    (h : tableGet l k = some v) : (k, v) ∈ l := by
  induction l with
  | nil => simp [tableGet] at h
  | cons kv rest ih =>
      by_cases hk : kv.1 = k
      · obtain ⟨a, b⟩ := kv
        obtain rfl : a = k := hk
        simp only [tableGet, if_pos] at h
        obtain rfl : b = v := by simpa using h
        exact List.mem_cons_self _ _
      · have h' : tableGet rest k = some v := by simpa [tableGet, hk] using h
        exact List.mem_cons_of_mem _ (ih h')

/-- Every entry after a write is either the written pair or an old entry. -/
theorem mem_tableSet {x : String × Stroke} {k : String} {v : Stroke}
    {l : List (String × Stroke)} (h : x ∈ tableSet k v l) :
    x = (k, v) ∨ x ∈ l := by
  unfold tableSet at h
  by_cases hs : (tableGet l k).isSome
  · rw [if_pos hs] at h
    rcases List.mem_map.mp h with ⟨kv, hkv, hx⟩
    by_cases hk : kv.1 = k
    · left
      rw [if_pos hk] at hx
      exact hx.symm
    · right
      rw [if_neg hk] at hx
      exact hx ▸ hkv
  · rw [if_neg hs] at h
    rcases List.mem_append.mp h with h | h
    · exact Or.inr h
    · exact Or.inl (List.mem_singleton.mp h)

/-- Deletion only removes entries. -/
theorem mem_tableDel {x : String × Stroke} {k : String}
    {l : List (String × Stroke)} (h : x ∈ tableDel k l) : x ∈ l :=
  (List.mem_filter.mp h).1

/-! ### Claim theorems -/

/-- Claim C3: a second `draw:start` for the same participant id before any
`draw:end` overwrites (does not merge with) the existing in-progress
entry in the Remote Stroke Table, and after a subsequent `draw:end` the
Stroke Store gains exactly the second stroke — none of the first
stroke's points are persisted. -/
theorem c3_second_start_overwrites (s : AppState) (uid : String)
    (pts1 pts2 : List Point) (c1 c2 : String) (w1 w2 : Int)
    (e1 e2 : Bool) :
    tableGet (onRemoteStart uid pts2 c2 w2 e2
        (onRemoteStart uid pts1 c1 w1 e1 s)).remoteStrokes uid =
      some ({ points := pts2, color := c2, width := w2, isEraser := e2 }) ∧
    (onRemoteEnd uid (onRemoteStart uid pts2 c2 w2 e2
        (onRemoteStart uid pts1 c1 w1 e1 s))).strokes =
      s.strokes ++
        [({ points := pts2, color := c2, width := w2, isEraser := e2 },
          Origin.fromRemote uid)] := by
  have h2 := tableGet_tableSet
    (tableSet uid
      ({ points := pts1, color := c1, width := w1, isEraser := e1 })
      s.remoteStrokes) uid
    ({ points := pts2, color := c2, width := w2, isEraser := e2 })
  constructor
  · simpa [onRemoteStart] using h2
  · simp [onRemoteStart, onRemoteEnd] at h2 ⊢
    simp [h2]

/-- Claim C4: `draw:move` for a participant id with no entry in the Remote
Stroke Table leaves the whole state — in particular the Remote Stroke
Table and the Stroke Store — unchanged, for every point batch: the event
is dropped silently. -/
theorem c4_remote_move_unknown_id_noop (s : AppState) (uid : String)
    (pts : List Point) (h : tableGet s.remoteStrokes uid = none) :
    onRemoteMove uid pts s = s := by
  simp [onRemoteMove, h]

/-- Witness for C4 at a concrete state and id. -/
theorem c4_remote_move_unknown_id_noop_witness :
    tableGet (initState none).remoteStrokes "u9" = none ∧
    onRemoteMove "u9" [⟨1, 2⟩] (initState none) = initState none :=
  ⟨by decide,
   c4_remote_move_unknown_id_noop (initState none) "u9" [⟨1, 2⟩]
     (by decide)⟩

/-- Claim C5: `draw:end` for a participant id with no entry in the Remote
Stroke Table is a no-op on the whole state — in particular the Stroke
Store keeps exactly its strokes. -/
theorem c5_remote_end_unknown_id_noop (s : AppState) (uid : String)
    (h : tableGet s.remoteStrokes uid = none) :
    onRemoteEnd uid s = s := by
  simp [onRemoteEnd, h]

/-- Witness for C5 on the claim's scenario: after `hydrate([strokeA,
strokeB])`, a `draw:end` for the unknown id `"u3"` leaves the state
unchanged, and the Stroke Store still contains exactly the two hydrated
strokes. -/
theorem c5_remote_end_unknown_id_noop_witness :
    tableGet (hydrate [strokeA, strokeB]
        (initState none)).remoteStrokes "u3" = none ∧
    onRemoteEnd "u3" (hydrate [strokeA, strokeB] (initState none)) =
      hydrate [strokeA, strokeB] (initState none) ∧
    (hydrate [strokeA, strokeB] (initState none)).strokes =
      [(hydrateStroke strokeA, Origin.fromHydrate),
       (hydrateStroke strokeB, Origin.fromHydrate)] :=
  ⟨by decide,
   c5_remote_end_unknown_id_noop (hydrate [strokeA, strokeB]
     (initState none)) "u3" (by decide),
   by decide⟩

/-- Claim C6: a `draw:start` for a participant carrying initial points
`[{5,5}]` and style color `"#f00"`, width 2, followed immediately by a
`draw:end` for that participant with no intervening move, appends to the
Stroke Store exactly one stroke with points `[{5,5}]`, color `"#f00"`
and width 2. -/
theorem c6_start_end_one_point_stroke (s : AppState) (uid : String)
    (e : Bool) :
    (onRemoteEnd uid (onRemoteStart uid [⟨5, 5⟩] "#f00" 2 e s)).strokes =
      s.strokes ++
        [({ points := [⟨5, 5⟩], color := "#f00", width := 2,
            isEraser := e }, Origin.fromRemote uid)] := by
  have h := tableGet_tableSet s.remoteStrokes uid
    ({ points := [⟨5, 5⟩], color := "#f00", width := 2, isEraser := e })
  simp [onRemoteStart, onRemoteEnd, h]

/-- Claim C9: `hydrate` appends all snapshot strokes to the Stroke Store in
the order received — each converted by `hydrateStroke`, which preserves
the points, the color, the width (read from the wire field
`strokeWidth`) and the `isEraser` flag — and leaves the Remote Stroke
Table unchanged. -/
theorem c9_hydrate_appends_in_order (s : AppState) (ws : List WireStroke) :
    (hydrate ws s).strokes =
      s.strokes ++ ws.map (fun w => (hydrateStroke w, Origin.fromHydrate)) ∧
    (hydrate ws s).remoteStrokes = s.remoteStrokes ∧
    ∀ w : WireStroke,
      (hydrateStroke w).points = w.points ∧
      (hydrateStroke w).color = w.color ∧
      (hydrateStroke w).width = w.strokeWidth ∧
      (hydrateStroke w).isEraser = w.isEraser :=
  ⟨rfl, rfl, fun _ => ⟨rfl, rfl, rfl, rfl⟩⟩

/-- Claim C10: when no local user has joined (`myUser` is `none`),
`onMouseDown` is a complete no-op: the whole state — in particular the
in-progress stroke, the emitted-event log, the Stroke Store and the
Remote Stroke Table — is unchanged. -/
theorem c10_mouse_down_no_user_noop (s : AppState) (p : Point)
    (h : s.myUser = none) : onMouseDown p s = s := by
  simp [onMouseDown, canUserDraw, h]

/-- Witness for C10 at a concrete state and point. -/
theorem c10_mouse_down_no_user_noop_witness :
    (initState none).myUser = none ∧
    onMouseDown ⟨3, 4⟩ (initState none) = initState none :=
  ⟨by decide,
   c10_mouse_down_no_user_noop (initState none) ⟨3, 4⟩ (by decide)⟩

/-- Claim C2 counterexample: `undoLast` does remove a stroke whose owner is
not the local participant.  From the initial state, a remote start and
end for `"u1"` leave one remote-origin stroke as the most recently
appended stroke in the Stroke Store, and the ctrl-z handler removes
exactly that stroke, leaving the store empty. -/
theorem c2_counterexample :
    (onRemoteEnd "u1" (onRemoteStart "u1" [⟨1, 1⟩] "#00f" 3 false
        (initState (some "me")))).strokes =
      [({ points := [⟨1, 1⟩], color := "#00f", width := 3,
          isEraser := false }, Origin.fromRemote "u1")] ∧
    (undoLast (onRemoteEnd "u1" (onRemoteStart "u1" [⟨1, 1⟩] "#00f" 3 false
        (initState (some "me"))))).strokes = [] := by
  decide

/-- Claim C2 amended: the undo handler (`strokesRef.current.pop()`) removes
the most recently appended stroke of the Stroke Store regardless of its
origin — remote-origin and hydrated strokes are removed just like
local-origin ones when they are last. -/
theorem c2_amended_undo_pops_any_origin (s : AppState)
    (rest : List (Stroke × Origin)) (st : Stroke) (o : Origin)
    (h : s.strokes = rest ++ [(st, o)]) :
    (undoLast s).strokes = rest := by
  simp [undoLast, h]

/-- Witness for the amended C2 at a concrete state whose last store entry
is remote-origin. -/
theorem c2_amended_undo_pops_any_origin_witness :
    (undoLast (onRemoteEnd "u2" (onRemoteStart "u2" [⟨4, 4⟩] "#0f0" 5 true
        (initState none)))).strokes = [] :=
  c2_amended_undo_pops_any_origin
    (onRemoteEnd "u2" (onRemoteStart "u2" [⟨4, 4⟩] "#0f0" 5 true
      (initState none)))
    []
    ({ points := [⟨4, 4⟩], color := "#0f0", width := 5, isEraser := true })
    (Origin.fromRemote "u2") (by decide)

/-- Effect of a sequence of `onMouseMove` events while a stroke is in
progress and the canvas exists: the move points are appended to the
current stroke in order, one move event is emitted per point, and
nothing else changes. -/
theorem run_mouse_moves (pts : List Point) (mu : Option String)
    (cc : String) (lw : Int) (ie : Bool) (str : List (Stroke × Origin))
    (stp : List Point) (stc : String) (stw : Int) (ste : Bool)
    (rt : List (String × Stroke)) (em : List WireOut) :
    run (AppState.mk mu true cc lw ie str
        (some (Stroke.mk stp stc stw ste)) rt em) (pts.map Ev.mouseMove) =
      AppState.mk mu true cc lw ie str
        (some (Stroke.mk (stp ++ pts) stc stw ste)) rt
        (em ++ pts.map fun p => WireOut.moveEv p.x p.y) := by
  induction pts generalizing stp em with
  | nil => simp [run]
  | cons p rest ih =>
      have h1 : run (AppState.mk mu true cc lw ie str
          (some (Stroke.mk stp stc stw ste)) rt em)
            ((p :: rest).map Ev.mouseMove) =
          run (AppState.mk mu true cc lw ie str
            (some (Stroke.mk (stp ++ [p]) stc stw ste)) rt
            (em ++ [WireOut.moveEv p.x p.y])) (rest.map Ev.mouseMove) := by
        simp [run, step, onMouseMove, drawLine]
      rw [h1, ih]
      simp

/-- Claim C1 counterexample: the scenario `begin({0,0})`, `extend({1,1})`,
`extend({2,2})`, `end()` — run as `onMouseDown`, two `onMouseMove`s and
`onMouseUp` with a joined user and a mounted canvas — appends to the
Stroke Store one stroke whose points are `[{0,0},{0,0},{1,1},{2,2}]`,
not `[{0,0},{1,1},{2,2}]`: the origin appears twice, once from the
stroke initialization in `onMouseDown` and once from its
`drawLine(coords)` call. -/
theorem c1_counterexample :
    ((run (initState (some "me"))
        [Ev.mouseDown ⟨0, 0⟩, Ev.mouseMove ⟨1, 1⟩, Ev.mouseMove ⟨2, 2⟩,
         Ev.mouseUp]).strokes.map fun x => x.1.points) =
      [[⟨0, 0⟩, ⟨0, 0⟩, ⟨1, 1⟩, ⟨2, 2⟩]] ∧
    ((run (initState (some "me"))
        [Ev.mouseDown ⟨0, 0⟩, Ev.mouseMove ⟨1, 1⟩, Ev.mouseMove ⟨2, 2⟩,
         Ev.mouseUp]).strokes.map fun x => x.1.points) ≠
      [[⟨0, 0⟩, ⟨1, 1⟩, ⟨2, 2⟩]] := by
  decide

/-- Claim C1 amended: for every local gesture `begin(origin)`,
`extend(p1) … extend(pn)`, `end()` performed with a joined user and a
mounted canvas, the stroke appended to the Stroke Store has points equal
to the extend sequence, in order, prefixed by the origin twice (the
origin is recorded once by the stroke initialization in `onMouseDown`
and once more by its `drawLine` call). -/
theorem c1_amended_local_gesture_points (s : AppState) (origin : Point)
    (pts : List Point) (hu : canUserDraw s = true)
    (hc : s.hasCanvas = true) :
    (run s (Ev.mouseDown origin ::
        (pts.map Ev.mouseMove ++ [Ev.mouseUp]))).strokes =
      s.strokes ++
        [({ points := origin :: origin :: pts, color := s.currentColor,
            width := s.lineWidth, isEraser := s.isEraser },
          Origin.fromLocal)] := by
  have hdown : run s (Ev.mouseDown origin ::
      (pts.map Ev.mouseMove ++ [Ev.mouseUp])) =
      run ({ s with
              currentStroke :=
                some ({ points := [origin, origin],
                        color := s.currentColor, width := s.lineWidth,
                        isEraser := s.isEraser }),
              emitted :=
                s.emitted ++ [WireOut.startEv origin.x origin.y
                  s.currentColor s.lineWidth s.isEraser] })
        (pts.map Ev.mouseMove ++ [Ev.mouseUp]) := by
    simp [run, step, onMouseDown, drawLine, hu, hc]
  have hsplit : ∀ s0 : AppState,
      run s0 (pts.map Ev.mouseMove ++ [Ev.mouseUp]) =
        onMouseUp (run s0 (pts.map Ev.mouseMove)) := by
    intro s0
    simp [run, List.foldl_append, step]
  rw [hdown, hsplit, hc, run_mouse_moves]
  simp [onMouseUp]

/-- Witness for the amended C1 on the claim's scenario inputs. -/
theorem c1_amended_local_gesture_points_witness :
    (run (initState (some "me"))
        (Ev.mouseDown ⟨0, 0⟩ ::
          (([⟨1, 1⟩, ⟨2, 2⟩] : List Point).map Ev.mouseMove ++
            [Ev.mouseUp]))).strokes =
      (initState (some "me")).strokes ++
        [({ points := ⟨0, 0⟩ :: ⟨0, 0⟩ :: [⟨1, 1⟩, ⟨2, 2⟩],
            color := (initState (some "me")).currentColor,
            width := (initState (some "me")).lineWidth,
            isEraser := (initState (some "me")).isEraser },
          Origin.fromLocal)] :=
  c1_amended_local_gesture_points (initState (some "me")) ⟨0, 0⟩
    [⟨1, 1⟩, ⟨2, 2⟩] (by decide) (by decide)

/-- Claim C7 counterexample: `onMouseDown` invoked while a stroke is
already in progress does not fail with `InvalidState` and is not a
no-op.  At the concrete state reached by a first `onMouseDown` at
`{0,0}` (a stroke is in progress), a second `onMouseDown` at `{9,9}`
replaces the in-progress stroke and emits a second `draw:start`
event. -/
theorem c7_counterexample :
    (onMouseDown ⟨0, 0⟩ (initState (some "me"))).currentStroke =
      some ({ points := [⟨0, 0⟩, ⟨0, 0⟩], color := "#000000", width := 4,
              isEraser := false }) ∧
    (onMouseDown ⟨9, 9⟩ (onMouseDown ⟨0, 0⟩
        (initState (some "me")))).currentStroke =
      some ({ points := [⟨9, 9⟩, ⟨9, 9⟩], color := "#000000", width := 4,
              isEraser := false }) ∧
    (onMouseDown ⟨9, 9⟩ (onMouseDown ⟨0, 0⟩
        (initState (some "me")))).emitted =
      [WireOut.startEv 0 0 "#000000" 4 false,
       WireOut.startEv 9 9 "#000000" 4 false] := by
  decide

/-- Claim C7 amended: when a stroke is already in progress for the local
participant, `onMouseDown` neither fails nor leaves the builder alone:
it discards the in-progress stroke, installs a fresh current stroke
containing the new origin twice, emits a new `draw:start` event, and
leaves the Stroke Store unchanged — there is no `InvalidState` check. -/
theorem c7_amended_begin_replaces_in_progress (s : AppState) (p : Point)
    (st0 : Stroke) (hu : canUserDraw s = true) (hc : s.hasCanvas = true)
    (hcur : s.currentStroke = some st0) :
    (onMouseDown p s).currentStroke =
      some ({ points := [p, p], color := s.currentColor,
              width := s.lineWidth, isEraser := s.isEraser }) ∧
    (onMouseDown p s).emitted =
      s.emitted ++
        [WireOut.startEv p.x p.y s.currentColor s.lineWidth s.isEraser] ∧
    (onMouseDown p s).strokes = s.strokes := by
  simp [onMouseDown, drawLine, hu, hc]

/-- Witness for the amended C7 at `inProgressState`. -/
theorem c7_amended_begin_replaces_in_progress_witness :
    canUserDraw inProgressState = true ∧
    ((onMouseDown ⟨9, 9⟩ inProgressState).currentStroke =
        some ({ points := [⟨9, 9⟩, ⟨9, 9⟩], color := "#00ff00",
                width := 2, isEraser := false }) ∧
      (onMouseDown ⟨9, 9⟩ inProgressState).emitted =
        [WireOut.startEv 9 9 "#00ff00" 2 false] ∧
      (onMouseDown ⟨9, 9⟩ inProgressState).strokes = []) :=
  ⟨by decide,
   c7_amended_begin_replaces_in_progress inProgressState ⟨9, 9⟩
     inProgressStroke (by decide) (by decide) rfl⟩

/-- The non-emptiness invariant, in propositional form. -/
theorem nonEmptyInv_iff (s : AppState) :
    nonEmptyInv s = true ↔
      (∀ x ∈ s.strokes, x.1.points ≠ []) ∧
      (∀ kv ∈ s.remoteStrokes, kv.2.points ≠ []) ∧
      (∀ st, s.currentStroke = some st → st.points ≠ []) := by
  unfold nonEmptyInv noEmptyStored
  cases hcur : s.currentStroke with
  | none => simp [List.all_eq_true, List.isEmpty_iff, hcur, and_assoc]
  | some st => simp [List.all_eq_true, List.isEmpty_iff, hcur, and_assoc]

/-- Every mutation entry point preserves the non-emptiness invariant, as
long as the event carries no empty point list. -/
theorem step_nonEmptyInv (s : AppState) (e : Ev)
    (hs : nonEmptyInv s = true) (he : goodEv e = true) :
    nonEmptyInv (step s e) = true := by
  rw [nonEmptyInv_iff] at hs
  rw [nonEmptyInv_iff]
  obtain ⟨h1, h2, h3⟩ := hs
  cases e with
  | mouseDown p =>
      cases hu : canUserDraw s with
      | false =>
          have hstep : step s (Ev.mouseDown p) = s := by
            simp [step, onMouseDown, hu]
          rw [hstep]
          exact ⟨h1, h2, h3⟩
      | true =>
          cases hcv : s.hasCanvas with
          | false =>
              have hstep : step s (Ev.mouseDown p) =
                  { s with
                    currentStroke :=
                      some (Stroke.mk [p] s.currentColor s.lineWidth
                        s.isEraser),
                    emitted := s.emitted ++ [WireOut.startEv p.x p.y
                      s.currentColor s.lineWidth s.isEraser] } := by
                simp [step, onMouseDown, drawLine, hu, hcv]
              rw [hstep]
              exact ⟨h1, h2, by simp⟩
          | true =>
              have hstep : step s (Ev.mouseDown p) =
                  { s with
                    currentStroke :=
                      some (Stroke.mk [p, p] s.currentColor s.lineWidth
                        s.isEraser),
                    emitted := s.emitted ++ [WireOut.startEv p.x p.y
                      s.currentColor s.lineWidth s.isEraser] } := by
                simp [step, onMouseDown, drawLine, hu, hcv]
              rw [hstep]
              exact ⟨h1, h2, by simp⟩
  | mouseMove p =>
      cases hcv : s.hasCanvas with
      | false =>
          have hstep : step s (Ev.mouseMove p) =
              { s with emitted :=
                  s.emitted ++ [WireOut.moveEv p.x p.y] } := by
            simp [step, onMouseMove, drawLine, hcv]
          rw [hstep]
          exact ⟨h1, h2, h3⟩
      | true =>
          cases hcur : s.currentStroke with
          | none =>
              have hstep : step s (Ev.mouseMove p) =
                  { s with emitted :=
                      s.emitted ++ [WireOut.moveEv p.x p.y] } := by
                simp [step, onMouseMove, drawLine, hcv, hcur]
              rw [hstep]
              exact ⟨h1, h2, by simp [hcur]⟩
          | some st =>
              have hstep : step s (Ev.mouseMove p) =
                  { s with
                    currentStroke :=
                      some ({ st with points := st.points ++ [p] }),
                    emitted :=
                      s.emitted ++ [WireOut.moveEv p.x p.y] } := by
                simp [step, onMouseMove, drawLine, hcv, hcur]
              rw [hstep]
              exact ⟨h1, h2, by simp⟩
  | mouseUp =>
      cases hcur : s.currentStroke with
      | none =>
          have hstep : step s Ev.mouseUp =
              { s with emitted := s.emitted ++ [WireOut.endEv] } := by
            simp [step, onMouseUp, hcur]
          rw [hstep]
          exact ⟨h1, h2, by simp [hcur]⟩
      | some st =>
          have hstep : step s Ev.mouseUp =
              { s with
                strokes := s.strokes ++ [(st, Origin.fromLocal)],
                currentStroke := none,
                emitted := s.emitted ++ [WireOut.endEv] } := by
            simp [step, onMouseUp, hcur]
          rw [hstep]
          refine ⟨?_, h2, by simp⟩
          intro x hx
          rcases List.mem_append.mp hx with hx | hx
          · exact h1 x hx
          · rcases List.mem_singleton.mp hx with rfl
            exact h3 st hcur
  | remoteStart uid pts c w e =>
      simp only [goodEv, Bool.not_eq_true', List.isEmpty_eq_false] at he
      simp only [step, onRemoteStart]
      refine ⟨h1, ?_, h3⟩
      intro kv hkv
      rcases mem_tableSet hkv with rfl | hkv
      · simpa using he
      · exact h2 kv hkv
  | remoteMove uid pts =>
      simp only [step, onRemoteMove]
      cases hget : tableGet s.remoteStrokes uid with
      | none => exact ⟨h1, h2, h3⟩
      | some st =>
          refine ⟨h1, ?_, h3⟩
          intro kv hkv
          rcases mem_tableSet hkv with rfl | hkv
          · have hst := h2 _ (tableGet_mem hget)
            simp only [ne_eq, List.append_eq_nil]
            intro hboth
            exact hst hboth.1
          · exact h2 kv hkv
  | remoteEnd uid =>
      simp only [step, onRemoteEnd]
      cases hget : tableGet s.remoteStrokes uid with
      | none => exact ⟨h1, h2, h3⟩
      | some st =>
          refine ⟨?_, ?_, h3⟩
          · intro x hx
            rcases List.mem_append.mp hx with hx | hx
            · exact h1 x hx
            · rcases List.mem_singleton.mp hx with rfl
              exact h2 _ (tableGet_mem hget)
          · intro kv hkv
            exact h2 kv (mem_tableDel hkv)
  | remoteClear =>
      exact ⟨by simp [step, onRemoteClear], by simp [step, onRemoteClear],
        h3⟩
  | hydrateEv ws =>
      simp only [goodEv, List.all_eq_true, Bool.not_eq_true',
        List.isEmpty_eq_false] at he
      simp only [step, hydrate]
      refine ⟨?_, h2, h3⟩
      intro x hx
      rcases List.mem_append.mp hx with hx | hx
      · exact h1 x hx
      · rcases List.mem_map.mp hx with ⟨w, hw, rfl⟩
        simpa [hydrateStroke] using he w hw
  | clearEv =>
      exact ⟨by simp [step, clearCanvas], by simp [step, clearCanvas], h3⟩
  | undoEv =>
      simp only [step, undoLast]
      exact ⟨fun x hx => h1 x (List.mem_of_mem_dropLast hx), h2, h3⟩

/-- The invariant is preserved by any run of events carrying no empty
point lists. -/
theorem run_nonEmptyInv (es : List Ev) (s : AppState)
    (hs : nonEmptyInv s = true) (hes : es.all goodEv = true) :
    nonEmptyInv (run s es) = true := by
  induction es generalizing s with
  | nil => exact hs
  | cons e rest ih =>
      rw [List.all_cons, Bool.and_eq_true] at hes
      exact ih (step s e) (step_nonEmptyInv s e hs hes.1) hes.2

/-- Claim C8 counterexample: the Stroke Store can contain a stroke with
zero points.  A `draw:start` whose payload carries an empty points array
creates a zero-point entry in the Remote Stroke Table, and a following
`draw:end` promotes that zero-point stroke into the Stroke Store. -/
theorem c8_counterexample :
    (run (initState none)
        [Ev.remoteStart "u1" [] "#000000" 1 false,
         Ev.remoteEnd "u1"]).strokes =
      [({ points := [], color := "#000000", width := 1,
          isEraser := false }, Origin.fromRemote "u1")] := by
  decide

/-- Claim C8 amended: under every sequence of local and remote events in
which every `draw:start` payload carries at least one initial point and
every hydrated snapshot stroke has at least one point, started from a
state satisfying the non-emptiness invariant (e.g. the initial state),
the Stroke Store never contains a stroke with zero points. -/
theorem c8_amended_no_empty_stroke_persisted (es : List Ev) (s : AppState)
    (hs : nonEmptyInv s = true) (hes : es.all goodEv = true) :
    noEmptyStored (run s es) = true := by
  have h := run_nonEmptyInv es s hs hes
  unfold nonEmptyInv at h
  simp only [Bool.and_eq_true] at h
  exact h.1.1

/-- Witness for the amended C8: a concrete mixed local/remote run. -/
theorem c8_amended_no_empty_stroke_persisted_witness :
    noEmptyStored (run (initState (some "me"))
        [Ev.hydrateEv [strokeA, strokeB],
         Ev.mouseDown ⟨0, 0⟩, Ev.mouseMove ⟨1, 1⟩,
         Ev.remoteStart "u1" [⟨5, 5⟩] "#f00" 2 false,
         Ev.mouseUp, Ev.remoteMove "u1" [⟨6, 6⟩],
         Ev.remoteEnd "u1", Ev.undoEv]) = true :=
  c8_amended_no_empty_stroke_persisted _ _ (by decide) (by decide)

end DrawApp
